import Mathlib

/-!
Verification of the neoclassical-transport compute kernels and objectives
(`desc/compute/_neoclassical.py`, `desc/objectives/_neoclassical.py`).

The pipeline is shallowly embedded over ℝ.  Pure functions of the source are
translated directly; repository machinery that lives outside these two files
(`safediv` from `desc.utils`, the `Bounce1D` bounce integrator, the grid
compress/expand/reshape idiom from `desc.grid`, `quadax.simpson`, and the
objective target-parsing helper) is modelled from the specification, as noted
in the corresponding doc comments.
-/

namespace DESC

/-- Modelled from the spec: `desc.utils.safediv` (not under `src/`) —
"safe-divide (zero when I is zero)": division that returns zero when the
denominator is zero instead of propagating NaN. -/
noncomputable def safediv (a b : ℝ) : ℝ := if b = 0 then 0 else a / b

/-- Modelled from the spec: the grid compress/expand idiom of `desc.grid`
(not under `src/`).  A grid is a structured set of points, each owned by a
flux surface `rho_of p`; `sec r` is the representative point of surface `r`
(used by `compress`), and `idx a r k` is the meshgrid point at field line
`a`, surface `r`, toroidal node `k` (used by `meshgrid_reshape` to layout
"arz" = (alpha, rho, zeta)). -/
structure Grid (nr na N : ℕ) where
  rho_of : Fin N → Fin nr
  sec : Fin nr → Fin N
  sec_rho : ∀ r, rho_of (sec r) = r
  idx : Fin na → Fin nr → ℕ → Fin N
  idx_rho : ∀ a r k, rho_of (idx a r k) = r

/-- Modelled from the spec: `grid.compress` — the unique per-surface value of
a flux-surface function stored on the full grid. -/
noncomputable def Grid.compress {nr na N : ℕ} (g : Grid nr na N) (f : Fin N → ℝ) : Fin nr → ℝ :=
  fun r => f (g.sec r)

/-- Modelled from the spec: `grid.expand` — broadcast a per-surface value back
to every grid point sharing that surface. -/
noncomputable def Grid.expand {nr na N : ℕ} (g : Grid nr na N) (f : Fin nr → ℝ) : Fin N → ℝ :=
  fun p => f (g.rho_of p)

/-- Source `_alpha_mean` (`desc/compute/_neoclassical.py`): simple mean over
field lines, `f.mean(axis=0)` with axis 0 the field-line label alpha. -/
noncomputable def _alpha_mean {nr na : ℕ} (f : Fin na → Fin nr → ℝ) : Fin nr → ℝ :=
  fun r => (∑ a, f a r) / (na : ℝ)

/-- Source `_compute`, inner structure of `foreach_rho`: the data dict handed
to `fun` for field line `a` on surface `r` is the reshaped per-field-line
data together with the surface's pitch quadrature
`Bounce1D.get_pitch_inv_quad(compress(min_tz B), compress(max_tz B),
num_pitch, simp)`.  `quadFn` abstracts `Bounce1D.get_pitch_inv_quad`
(repository code not under `src/`; per the spec it maps a surface's min and
max field strength to inverse-pitch nodes and weights), returning the
node/weight pair for each pitch index. -/
noncomputable def foreach_rho_input {nr na N : ℕ} {D : Type}
    (quadFn : ℝ → ℝ → ℕ → Bool → ℕ → ℝ × ℝ)
    (fun_data : Fin na → Fin nr → D)
    (min_tz_B max_tz_B : Fin N → ℝ) (g : Grid nr na N)
    (num_pitch : ℕ) (simpFlag : Bool)
    (a : Fin na) (r : Fin nr) : D × (ℕ → ℝ × ℝ) :=
  (fun_data a r,
    quadFn (g.compress min_tz_B r) (g.compress max_tz_B r) num_pitch simpFlag)

/-- Source `_compute` (`desc/compute/_neoclassical.py`) with `reduce=True`:
evaluate `fun` for each field line and surface with the surface's shared
pitch quadrature attached, take the mean over field lines, and expand back
to the grid. -/
noncomputable def _compute {nr na N : ℕ} {D : Type}
    (quadFn : ℝ → ℝ → ℕ → Bool → ℕ → ℝ × ℝ)
    (f : D → (ℕ → ℝ × ℝ) → ℝ)
    (fun_data : Fin na → Fin nr → D)
    (min_tz_B max_tz_B : Fin N → ℝ) (g : Grid nr na N)
    (num_pitch : ℕ) (simpFlag : Bool) : Fin N → ℝ :=
  g.expand (_alpha_mean fun a r =>
    f (foreach_rho_input quadFn fun_data min_tz_B max_tz_B g num_pitch simpFlag a r).1
      (foreach_rho_input quadFn fun_data min_tz_B max_tz_B g num_pitch simpFlag a r).2)

/-- Modelled from the spec: the `Bounce1D` bounce integrator (repository code
not under `src/`).  For one field line, `nw` is the (padded) number of wells,
`nq` the number of quadrature points per well; for a given inverse-pitch
value, `w u j k`, `B u j k` and `extra u j k` are the quadrature weight, the
field strength, and the interpolated extra integrand datum (here
`|grad(rho)| * kappa_g`) at point `k` of well `j`.  Per the spec, a bounce
integral maps a fixed quadrature rule onto each well and weight-sums the
integrand evaluated at the mapped points. -/
structure BounceModel where
  nw : ℕ
  nq : ℕ
  w : ℝ → ℕ → ℕ → ℝ
  B : ℝ → ℕ → ℕ → ℝ
  extra : ℝ → ℕ → ℕ → ℝ

/-- Modelled from the spec: `Bounce1D.integrate` of one integrand
`f (data, B, pitch)` over well `j` at inverse-pitch `u`; the pitch value
handed to the integrand is the reciprocal of the inverse-pitch node. -/
noncomputable def BounceModel.integrate (bm : BounceModel) (f : ℝ → ℝ → ℝ → ℝ)
    (pitch_inv : ℝ) (j : ℕ) : ℝ :=
  ∑ k ∈ Finset.range bm.nq,
    bm.w pitch_inv j k * f (bm.extra pitch_inv j k) (bm.B pitch_inv j k) pitch_inv⁻¹

/-- Source `dH` inside `_epsilon_32`: integrand of Nemov eq. 30 with
|dpsi/drho| (lambda B0)^1.5 removed; `data` is the interpolated
`|grad(rho)| * kappa_g`. -/
noncomputable def dH (data B pitch : ℝ) : ℝ :=
  Real.sqrt |1 - pitch * B| * (4 / (pitch * B) - 1) * data / B

/-- Source `dI` inside `_epsilon_32`: integrand of Nemov eq. 31 (ignores the
extra data). -/
noncomputable def dI (_data B pitch : ℝ) : ℝ :=
  Real.sqrt |1 - pitch * B| / B

/-- Source `eps_32` inside `_epsilon_32`: per pitch node, sum over wells of
`safediv(H^2, I)`, then weight-sum over pitch nodes with factor
`pitch_inv ** (-3) * pitch_inv_weight`. -/
noncomputable def eps_32 (bm : BounceModel) (pq : ℕ → ℝ × ℝ) (num_pitch : ℕ) : ℝ :=
  ∑ i ∈ Finset.range num_pitch,
    (∑ j ∈ Finset.range bm.nw,
        safediv ((bm.integrate dH (pq i).1 j) ^ 2) (bm.integrate dI (pq i).1 j))
      * (pq i).1 ^ (-3 : ℤ) * (pq i).2

/-- Source `_epsilon_32` (`desc/compute/_neoclassical.py`): the stored
quantity "effective ripple 3/2" — prefactor `pi / (8 sqrt 2) *
(B0 * R0 / avg |grad rho|)^2` with `B0 = data["max_tz |B|"]`, times the
streaming reduction of `eps_32` over field lines, divided by
`data["fieldline length"]`.  `bounce a r` abstracts the `Bounce1D` object
built from the reshaped field-line data at (alpha, rho). -/
noncomputable def _epsilon_32 {nr na N : ℕ} (g : Grid nr na N)
    (quadFn : ℝ → ℝ → ℕ → Bool → ℕ → ℝ × ℝ)
    (bounce : Fin na → Fin nr → BounceModel)
    (min_tz_B max_tz_B grad_rho_avg fieldline_length : Fin N → ℝ)
    (R0 : ℝ) (num_pitch : ℕ) : Fin N → ℝ :=
  fun p =>
    Real.pi / (8 * Real.sqrt 2)
      * (max_tz_B p * R0 / grad_rho_avg p) ^ 2
      * _compute quadFn (fun bm pq => eps_32 bm pq num_pitch) bounce
          min_tz_B max_tz_B g num_pitch false p
      / fieldline_length p

/-- Source `_effective_ripple` (`desc/compute/_neoclassical.py`): the
reported "effective ripple" is the stored "effective ripple 3/2" raised to
the power 2/3, pointwise on the grid. -/
noncomputable def _effective_ripple {N : ℕ} (eps32 : Fin N → ℝ) : Fin N → ℝ :=
  fun p => eps32 p ^ ((2 : ℝ) / 3)

/-- Reading of the C2 spec sentence, for comparison against `eps_32`: the
per-pitch sums of `safediv(H^2, I)` weight-summed over pitch nodes using
"pitch to the power negative three" times the pitch quadrature weight, with
pitch the reciprocal of the inverse-pitch node (the spec's pitch value, as in
its integrand weight `4 / (pitch * B) - 1`). -/
noncomputable def eps_32_specReading (bm : BounceModel) (pq : ℕ → ℝ × ℝ) (num_pitch : ℕ) : ℝ :=
  ∑ i ∈ Finset.range num_pitch,
    (∑ j ∈ Finset.range bm.nw,
        safediv ((bm.integrate dH (pq i).1 j) ^ 2) (bm.integrate dI (pq i).1 j))
      * ((pq i).1⁻¹) ^ (-3 : ℤ) * (pq i).2

/-- Modelled from the spec: `quadax.simpson` (external dependency) on a
uniformly spaced closed grid of `2 * m + 1` nodes with spacing `h` — the
standard composite Simpson rule, which includes both endpoint samples. -/
noncomputable def simpson (h : ℝ) (m : ℕ) (y : ℕ → ℝ) : ℝ :=
  h / 3 * (y 0 + 4 * ∑ i ∈ Finset.range m, y (2 * i + 1)
    + 2 * ∑ i ∈ Finset.range (m - 1), y (2 * i + 2) + y (2 * m))

/-- Source `_fieldline_length` (`desc/compute/_neoclassical.py`): Simpson
quadrature of `1 / B^zeta` along the zeta nodes of each field line (the data
reshaped to "arz" layout), then `expand(abs(alpha_mean(L)))`.  `h` is the
spacing of the `2 * m + 1` zeta nodes. -/
noncomputable def _fieldline_length {nr na N : ℕ} (g : Grid nr na N)
    (h : ℝ) (m : ℕ) (B_zeta : Fin N → ℝ) : Fin N → ℝ :=
  g.expand fun r =>
    |_alpha_mean (fun a rr => simpson h m fun k => 1 / B_zeta (g.idx a rr k)) r|

/-- Quadrature recipes used by the objectives; the builders themselves
(`chebgauss2`, `leggauss` with the sin automorphism) live outside `src/`, so
only their identity and resolution are tracked. -/
inductive QuadKind
| chebgauss2 (n : ℕ)
| leggauss_sin (n : ℕ)
deriving DecidableEq, Repr

/-- Source `GammaC.__init__` (`desc/objectives/_neoclassical.py`): the
computed quantity's name is selected by the `Nemov` flag. -/
def gammaC_key (Nemov : Bool) : String :=
  if Nemov then "Gamma_c" else "Gamma_c Velasco"

/-- Constants assembled by `GammaC.build`: the bounce quadrature `quad` and,
only for the Nemov formulation, the additional `chebgauss2` quadrature
`quad2`. -/
structure GammaCConstants where
  quad : QuadKind
  quad2 : Option QuadKind
deriving DecidableEq, Repr

/-- Source `GammaC.build` (`desc/objectives/_neoclassical.py`): builds
`quad = get_quadrature(leggauss(num_quad), automorphism_sin)` and, if the
key is "Gamma_c", also `quad2 = chebgauss2(num_quad)`. -/
def gammaC_build (key : String) (num_quad : ℕ) : GammaCConstants :=
  { quad := QuadKind.leggauss_sin num_quad
    quad2 := if key = "Gamma_c" then some (QuadKind.chebgauss2 num_quad) else none }

/-- Source `GammaC.compute` (`desc/objectives/_neoclassical.py`): requests
the quantity named by the key from the compute framework, passing the
constants' `quad2` as keyword `quad2` only when the key is "Gamma_c".
Returns the pair (requested quantity name, `quad2` keyword passed). -/
def gammaC_compute (key : String) (c : GammaCConstants) : String × Option QuadKind :=
  (key, if key = "Gamma_c" then c.quad2 else none)

/-- Source `EffectiveRipple.__init__` and `GammaC.__init__`
(`desc/objectives/_neoclassical.py`): when neither a target nor bounds are
supplied, the target defaults to 0. -/
noncomputable def default_target (target bounds : Option ℝ) : Option ℝ :=
  if target = none ∧ bounds = none then some (0 : ℝ) else target

/-- Modelled from the spec: `_parse_callable_target_bounds`
(`desc/objectives/utils.py`, not under `src/`) broadcasts a scalar target to
one value per requested flux surface. -/
noncomputable def parse_target (nrho : ℕ) (target : Option ℝ) :
    Option (Fin nrho → ℝ) :=
  target.map fun t => fun _ => t

/-- The per-surface target an `EffectiveRipple` objective ends up with after
`__init__` (default selection) and `build` (parsing/broadcast). -/
noncomputable def effectiveRipple_target (nrho : ℕ) (target bounds : Option ℝ) :
    Option (Fin nrho → ℝ) :=
  parse_target nrho (default_target target bounds)

/-- The per-surface target a `GammaC` objective ends up with after `__init__`
(default selection) and `build` (parsing/broadcast); the source lines are
identical to `EffectiveRipple`'s. -/
noncomputable def gammaC_target (nrho : ℕ) (target bounds : Option ℝ) :
    Option (Fin nrho → ℝ) :=
  parse_target nrho (default_target target bounds)

/-- C1: for every surface and every valid input, the reported quantity
"effective ripple" equals the stored quantity "effective ripple 3/2" raised
to the 2/3 power, exactly: at every grid point, `_effective_ripple` applied
to the output of `_epsilon_32` is that stored value to the power 2/3. -/
theorem effective_ripple_is_eps32_pow_two_thirds {nr na N : ℕ} (g : Grid nr na N)
    (quadFn : ℝ → ℝ → ℕ → Bool → ℕ → ℝ × ℝ)
    (bounce : Fin na → Fin nr → BounceModel)
    (min_tz_B max_tz_B grad_rho_avg fieldline_length : Fin N → ℝ)
    (R0 : ℝ) (num_pitch : ℕ) (p : Fin N) :
    _effective_ripple
        (_epsilon_32 g quadFn bounce min_tz_B max_tz_B grad_rho_avg
          fieldline_length R0 num_pitch) p
      = (_epsilon_32 g quadFn bounce min_tz_B max_tz_B grad_rho_avg
          fieldline_length R0 num_pitch p) ^ ((2 : ℝ) / 3) :=
  rfl

/-- C5: for every flux surface, the reduced per-surface value of the
streaming reduction is the unweighted (uniform) mean of the per-field-line
results over all field-line labels — the sum over alpha divided by the
number of field lines, with no angular-spacing weights — and the value at a
grid point `p` depends on `p` only through its owning surface `rho_of p`
(broadcast back to every point sharing that surface). -/
theorem compute_uniform_alpha_mean_broadcast {nr na N : ℕ} {D : Type}
    (quadFn : ℝ → ℝ → ℕ → Bool → ℕ → ℝ × ℝ)
    (f : D → (ℕ → ℝ × ℝ) → ℝ) (fun_data : Fin na → Fin nr → D)
    (min_tz_B max_tz_B : Fin N → ℝ) (g : Grid nr na N)
    (num_pitch : ℕ) (simpFlag : Bool) (p : Fin N) :
    _compute quadFn f fun_data min_tz_B max_tz_B g num_pitch simpFlag p
      = (∑ a : Fin na,
          f (fun_data a (g.rho_of p))
            (quadFn (g.compress min_tz_B (g.rho_of p))
              (g.compress max_tz_B (g.rho_of p)) num_pitch simpFlag)) / (na : ℝ) :=
  rfl

/-- C6: for every surface, the quantity "fieldline length" is the closed
composite Simpson quadrature of `1 / B^zeta` along the zeta nodes of each
field line (both endpoint samples carry weight `h / 3`), the magnitude of
the field-line average of these integrals, expanded back onto the grid (the
value at `p` depends only on its surface `rho_of p`). -/
theorem fieldline_length_closed_simpson {nr na N : ℕ} (g : Grid nr na N)
    (h : ℝ) (m : ℕ) (B_zeta : Fin N → ℝ) (p : Fin N) :
    _fieldline_length g h m B_zeta p
      = |(∑ a : Fin na, h / 3
            * (1 / B_zeta (g.idx a (g.rho_of p) 0)
              + 4 * ∑ i ∈ Finset.range m, 1 / B_zeta (g.idx a (g.rho_of p) (2 * i + 1))
              + 2 * ∑ i ∈ Finset.range (m - 1),
                  1 / B_zeta (g.idx a (g.rho_of p) (2 * i + 2))
              + 1 / B_zeta (g.idx a (g.rho_of p) (2 * m)))) / (na : ℝ)| :=
  rfl

/-- C7: for every flux surface, the pitch quadrature attached to a field
line's data is exactly `get_pitch_inv_quad` of that surface's compressed
minimum and maximum field strength (so it is derived solely from those two
per-surface scalars, independent of the field-line data), and the very same
quadrature is attached to every field line on that surface. -/
theorem pitch_quadrature_shared_per_surface {nr na N : ℕ} {D : Type}
    (quadFn : ℝ → ℝ → ℕ → Bool → ℕ → ℝ × ℝ)
    (fun_data fun_data2 : Fin na → Fin nr → D)
    (min_tz_B max_tz_B : Fin N → ℝ) (g : Grid nr na N)
    (num_pitch : ℕ) (simpFlag : Bool) (a a2 : Fin na) (r : Fin nr) :
    (foreach_rho_input quadFn fun_data min_tz_B max_tz_B g num_pitch simpFlag a r).2
        = quadFn (g.compress min_tz_B r) (g.compress max_tz_B r) num_pitch simpFlag
      ∧ (foreach_rho_input quadFn fun_data min_tz_B max_tz_B g num_pitch simpFlag a r).2
        = (foreach_rho_input quadFn fun_data2 min_tz_B max_tz_B g num_pitch simpFlag a2 r).2 :=
  ⟨rfl, rfl⟩

/-- C8: the `GammaC` objective selects between the two published
formulations via its `Nemov` flag — with `Nemov = true` it requests the
quantity named "Gamma_c" and builds the additional `chebgauss2` quadrature
passed as `quad2`; with `Nemov = false` it requests "Gamma_c Velasco" and
passes no `quad2`. -/
theorem gammaC_nemov_flag_selection (num_quad : ℕ) :
    gammaC_compute (gammaC_key true) (gammaC_build (gammaC_key true) num_quad)
        = ("Gamma_c", some (QuadKind.chebgauss2 num_quad))
      ∧ gammaC_compute (gammaC_key false) (gammaC_build (gammaC_key false) num_quad)
        = ("Gamma_c Velasco", none) := by
  refine ⟨?_, ?_⟩ <;>
    simp [gammaC_compute, gammaC_key, gammaC_build]

/-- C10: for both objectives `EffectiveRipple` and `GammaC`, when neither a
target nor bounds are supplied at construction, the target defaults to 0 for
every requested flux surface. -/
theorem objectives_default_target_zero (nrho : ℕ) :
    effectiveRipple_target nrho none none = some (fun _ => (0 : ℝ))
      ∧ gammaC_target nrho none none = some (fun _ => (0 : ℝ)) := by
  refine ⟨?_, ?_⟩ <;>
    simp [effectiveRipple_target, gammaC_target, parse_target, default_target]

/-- C4: for every well whose measure integral `I` is zero, the well's
contribution `safediv(H^2, I)` to the effective-ripple sum is exactly zero,
and the per-pitch sum over wells is unchanged by dropping that well — the
degenerate well contributes nothing downstream. -/
theorem zero_measure_well_contributes_zero (bm : BounceModel) (u : ℝ) (j : ℕ)
    (hI : bm.integrate dI u j = 0) :
    safediv ((bm.integrate dH u j) ^ 2) (bm.integrate dI u j) = 0
      ∧ (∑ jj ∈ Finset.range bm.nw,
            safediv ((bm.integrate dH u jj) ^ 2) (bm.integrate dI u jj))
        = ∑ jj ∈ (Finset.range bm.nw).erase j,
            safediv ((bm.integrate dH u jj) ^ 2) (bm.integrate dI u jj) := by
  have hz : safediv ((bm.integrate dH u j) ^ 2) (bm.integrate dI u j) = 0 := by
    simp [safediv, hI]
  refine ⟨hz, Eq.symm ?_⟩
  exact Finset.sum_erase _ hz

/-- Degenerate bounce data for which every bounce integral is the empty
quadrature sum: one retained well, zero quadrature points. -/
noncomputable def degenerateBM : BounceModel :=
  ⟨1, 0, fun _ _ _ => 0, fun _ _ _ => 0, fun _ _ _ => 0⟩

/-- Witness for C4 at concrete input: on `degenerateBM` the measure integral
of well 0 at inverse-pitch 2 is zero, and the conclusion of
`zero_measure_well_contributes_zero` holds there. -/
theorem zero_measure_well_contributes_zero_witness :
    degenerateBM.integrate dI 2 0 = 0
      ∧ (safediv ((degenerateBM.integrate dH 2 0) ^ 2) (degenerateBM.integrate dI 2 0) = 0
          ∧ (∑ jj ∈ Finset.range degenerateBM.nw,
                safediv ((degenerateBM.integrate dH 2 jj) ^ 2) (degenerateBM.integrate dI 2 jj))
            = ∑ jj ∈ (Finset.range degenerateBM.nw).erase 0,
                safediv ((degenerateBM.integrate dH 2 jj) ^ 2) (degenerateBM.integrate dI 2 jj)) :=
  ⟨by simp [BounceModel.integrate, degenerateBM],
    zero_measure_well_contributes_zero degenerateBM 2 0
      (by simp [BounceModel.integrate, degenerateBM])⟩

/-- Concrete bounce data with a single well and a single quadrature point of
weight 1, field strength 4, extra datum 1. -/
noncomputable def exampleBM : BounceModel :=
  ⟨1, 1, fun _ _ _ => 1, fun _ _ _ => 4, fun _ _ _ => 1⟩

/-- Concrete pitch quadrature: a single inverse-pitch node 2 (pitch 1/2)
with weight 1. -/
noncomputable def examplePQ : ℕ → ℝ × ℝ := fun _ => (2, 1)

/-- Counterexample for C2: the code's weight-sum over pitch nodes (factor
`pitch_inv ** (-3)`, i.e. pitch cubed) differs from the claim's
"pitch to the power negative three" at a concrete input — on `exampleBM`
with one pitch node of inverse-pitch 2, the code computes 1/32 while the
claim's formula gives 2. -/
theorem eps32_pitch_weight_counterexample :
    eps_32 exampleBM examplePQ 1 ≠ eps_32_specReading exampleBM examplePQ 1 := by
  have habs : |1 - (2 : ℝ)⁻¹ * 4| = 1 := by
    rw [show (1 - (2 : ℝ)⁻¹ * 4) = -1 by norm_num, abs_neg, abs_one]
  have hs : Real.sqrt |1 - (2 : ℝ)⁻¹ * 4| = 1 := by
    rw [habs]; exact Real.sqrt_one
  have hH : exampleBM.integrate dH 2 0 = 1 / 4 := by
    simp only [BounceModel.integrate, exampleBM, dH, Finset.sum_range_one]
    rw [hs]; norm_num
  have hI : exampleBM.integrate dI 2 0 = 1 / 4 := by
    simp only [BounceModel.integrate, exampleBM, dI, Finset.sum_range_one]
    rw [hs]; norm_num
  have hsd : safediv (((1 : ℝ) / 4) ^ 2) (1 / 4) = 1 / 4 := by
    simp only [safediv]
    rw [if_neg (by norm_num : ¬((1 : ℝ) / 4 = 0))]
    norm_num
  have h1 : eps_32 exampleBM examplePQ 1 = 1 / 32 := by
    simp only [eps_32, examplePQ, show exampleBM.nw = 1 from rfl,
      Finset.sum_range_one]
    rw [hH, hI, hsd]
    norm_num
  have h2 : eps_32_specReading exampleBM examplePQ 1 = 2 := by
    simp only [eps_32_specReading, examplePQ, show exampleBM.nw = 1 from rfl,
      Finset.sum_range_one]
    rw [hH, hI, hsd]
    norm_num
  rw [h1, h2]
  norm_num

/-- C2 as amended: in the effective-ripple kernel, the per-pitch sums over
wells of `safediv(H^2, I)` are weight-summed over pitch nodes using the
pitch value cubed (the reciprocal of the inverse-pitch node, raised to the
power +3 — not −3) times the pitch quadrature weight. -/
theorem eps32_weightsum_pitch_cubed (bm : BounceModel) (pq : ℕ → ℝ × ℝ)
    (num_pitch : ℕ) :
    eps_32 bm pq num_pitch
      = ∑ i ∈ Finset.range num_pitch,
          (∑ j ∈ Finset.range bm.nw,
              safediv ((bm.integrate dH (pq i).1 j) ^ 2) (bm.integrate dI (pq i).1 j))
            * ((pq i).1⁻¹) ^ (3 : ℤ) * (pq i).2 := by
  unfold eps_32
  refine Finset.sum_congr rfl fun i _ => ?_
  rw [inv_zpow, ← zpow_neg]

/-- C3: for every surface (every grid point `p`, whose value depends only on
its surface), the stored "effective ripple 3/2" equals the geometric
prefactor `pi / (8 sqrt 2) * (B0 * R0 / avg |grad rho|)^2` — with `B0` the
per-surface maximum field strength datum `max_tz |B|` — times the
field-line-averaged, pitch-weighted sum over wells of
`safediv(H^2, I)`, divided by the field-line length; here `H` and `I` are
the bounce integrals of the integrands `dH` (which carries the
velocity-space weight `4 / (pitch * B) - 1` and the curvature-weighted
geometric factor `|grad(rho)| * kappa_g`) and `dI` (a pure velocity-space
normalization), taken at the surface's inverse-pitch nodes, with pitch
weight `pitch_inv ^ (-3)` times the quadrature weight. -/
theorem effective_ripple_32_formula {nr na N : ℕ} (g : Grid nr na N)
    (quadFn : ℝ → ℝ → ℕ → Bool → ℕ → ℝ × ℝ)
    (bounce : Fin na → Fin nr → BounceModel)
    (min_tz_B max_tz_B grad_rho_avg fieldline_length : Fin N → ℝ)
    (R0 : ℝ) (num_pitch : ℕ) (p : Fin N) :
    _epsilon_32 g quadFn bounce min_tz_B max_tz_B grad_rho_avg fieldline_length
        R0 num_pitch p
      = Real.pi / (8 * Real.sqrt 2)
          * (max_tz_B p * R0 / grad_rho_avg p) ^ 2
          * ((∑ a : Fin na, ∑ i ∈ Finset.range num_pitch,
                (∑ j ∈ Finset.range (bounce a (g.rho_of p)).nw,
                    safediv
                      (((bounce a (g.rho_of p)).integrate dH
                          (quadFn (g.compress min_tz_B (g.rho_of p))
                            (g.compress max_tz_B (g.rho_of p)) num_pitch false i).1 j) ^ 2)
                      ((bounce a (g.rho_of p)).integrate dI
                          (quadFn (g.compress min_tz_B (g.rho_of p))
                            (g.compress max_tz_B (g.rho_of p)) num_pitch false i).1 j))
                  * (quadFn (g.compress min_tz_B (g.rho_of p))
                      (g.compress max_tz_B (g.rho_of p)) num_pitch false i).1 ^ (-3 : ℤ)
                  * (quadFn (g.compress min_tz_B (g.rho_of p))
                      (g.compress max_tz_B (g.rho_of p)) num_pitch false i).2) / (na : ℝ))
          / fieldline_length p :=
  rfl

end DESC
